import Mathlib

/-!
Verification development for the LawMate heuristic risk-assessment pipeline
(`lawmate_app/utils.py`, `lawmate_app/rag/justice_api.py` and the merge /
error-handling logic of `lawmate_app/ui/main_window.py`).

Python strings are modelled as `List Char` (sequences of Unicode code
points).  The Unicode-dependent character predicates (`str.lower`, the
`\s`, `\w` and keyword character classes) are modelled exactly on the
Basic Latin, Latin-1 Supplement and Latin Extended-A blocks, which cover
the Czech alphabet and every string occurring in the repository.
-/

abbrev Str := List Char

/-- Character class of Python `str.strip` / regex `\s` (whitespace),
restricted to the code points that can occur in the repository's data:
TAB..CR, FS..US, space, NEL, NBSP. -/
def isSpaceCh (c : Char) : Bool :=
  let n := c.toNat
  (9 ≤ n && n ≤ 13) || (28 ≤ n && n ≤ 32) || n == 133 || n == 160

/-- Python `str.lower` on a single code point, exact on Basic Latin,
Latin-1 Supplement and Latin Extended-A (the blocks containing the Czech
alphabet).  Code points outside these blocks are returned unchanged. -/
def pyLower (c : Char) : Char :=
  let n := c.toNat
  if 65 ≤ n ∧ n ≤ 90 then Char.ofNat (n + 32)
  else if 192 ≤ n ∧ n ≤ 222 ∧ n ≠ 215 then Char.ofNat (n + 32)
  else if 256 ≤ n ∧ n ≤ 311 ∧ n % 2 = 0 ∧ n ≠ 304 then Char.ofNat (n + 1)
  else if 313 ≤ n ∧ n ≤ 327 ∧ n % 2 = 1 then Char.ofNat (n + 1)
  else if 330 ≤ n ∧ n ≤ 374 ∧ n % 2 = 0 then Char.ofNat (n + 1)
  else if n = 376 then Char.ofNat 255
  else if 377 ≤ n ∧ n ≤ 381 ∧ n % 2 = 1 then Char.ofNat (n + 1)
  else c

/-- Test whether `p` occurs at the start of the second list
(Python `str.startswith`, and the base step of substring search). -/
def isPrefOf : Str → Str → Bool
  | [], _ => true
  | _ :: _, [] => false
  | a :: as, b :: bs => a == b && isPrefOf as bs

/-- Python's substring test `needle in hay`. -/
def hasSub (needle : Str) : Str → Bool
  | [] => isPrefOf needle []
  | c :: t => isPrefOf needle (c :: t) || hasSub needle t

/-- Drop leading and trailing whitespace (Python `str.strip`). -/
def stripChars (cs : Str) : Str :=
  ((cs.dropWhile isSpaceCh).reverse.dropWhile isSpaceCh).reverse

/-- Replace every maximal run of whitespace by a single space
(the action of `re.sub(r"\s+", " ", ·)`); the flag records whether the
previous character was whitespace. -/
def collapseWs (prevSpace : Bool) : Str → Str
  | [] => []
  | c :: t =>
    if isSpaceCh c then
      if prevSpace then collapseWs true t else ' ' :: collapseWs true t
    else c :: collapseWs false t

/-- Embedding of `utils.normalize_text`: `re.sub(r"\s+", " ", text.strip())`. -/
def normalize_text (text : Str) : Str :=
  collapseWs false (stripChars text)

/-- The raw character class `[a-zá-ž0-9]` of the keyword-extraction regex. -/
def inKwClass (c : Char) : Bool :=
  ('a' ≤ c && c ≤ 'z') || ('á' ≤ c && c ≤ 'ž') || ('0' ≤ c && c ≤ '9')

/-- The keyword-extraction character class under `re.IGNORECASE`:
a character matches if it or its lowercase form is in the raw class. -/
def isWordCh (c : Char) : Bool :=
  inKwClass c || inKwClass (pyLower c)

/-- Keep an accumulated (reversed) run if it has length at least 3,
mirroring the `{3,}` quantifier of the tokenizing regex. -/
def keepRun (acc : Str) : List Str :=
  if 3 ≤ acc.length then [acc.reverse] else []

/-- Accumulate maximal runs of keyword characters; `acc` holds the
current run reversed. -/
def runsAux (acc : Str) : Str → List Str
  | [] => keepRun acc
  | c :: t =>
    if isWordCh c then runsAux (c :: acc) t
    else keepRun acc ++ runsAux [] t

/-- Model of `re.findall(r"[a-zá-ž0-9]{3,}", ·, flags=re.IGNORECASE)`: the maximal
runs of keyword characters that have length at least 3, in order. -/
def findAllWords (cs : Str) : List Str :=
  runsAux [] cs

/-- The stopword collection `utils._CZ_STOPWORDS`, transcribed from the
triple-quoted literal (duplicates kept; set membership is unaffected). -/
def czStopwords : List Str :=
  ([ "a", "aby", "ať", "ale", "ani", "ano", "až", "be", "bez", "bude", "budou",
     "byl", "byla", "byli", "byste", "bych", "bychom", "bys", "by",
     "co", "do", "kdo", "kde", "když", "které", "která", "které", "který",
     "je", "jeho", "její", "jen", "ještě", "jestli", "jsem", "jsme", "jste", "jsou",
     "k", "ke", "komu", "kolik", "kolem", "ku", "kvůli", "kde", "která", "které", "který", "když",
     "na", "nad", "nebo", "než", "ni", "nic",
     "o", "od", "okolo", "pak", "po", "pod", "podle", "protože", "proti", "pro",
     "se", "si", "s", "spolu", "stejně", "svůj", "své", "svého", "svým", "svémi",
     "ta", "tak", "taky", "tam", "tady", "ten", "tento", "to", "tu", "tuto",
     "u", "už", "v", "ve", "vám", "vás", "vy", "váš", "vaše",
     "z", "za", "ze", "že" ] : List String).map String.data

/-- The deduplicating loop of `utils.extract_keywords`: iterate over the
token list, skip tokens already seen, append new ones (`out` is kept
reversed), and stop as soon as `out` has reached `cap` elements —
note the length test runs after the append, exactly as in the source. -/
def dedupLoop (cap : Nat) (seen : List Str) (out : List Str) : List Str → List Str
  | [] => out.reverse
  | w :: ws =>
    if w ∈ seen then dedupLoop cap seen out ws
    else
      if cap ≤ (w :: out).length then (w :: out).reverse
      else dedupLoop cap (w :: seen) (w :: out) ws

/-- Embedding of `utils.extract_keywords`: lowercase the normalized text, find the
length-3-plus alphanumeric runs, drop stopwords, deduplicate preserving
first-seen order and cut off at `max_keywords`. -/
def extract_keywords (text : Str) (max_keywords : Nat) : List Str :=
  let t := (normalize_text text).map pyLower
  let words := findAllWords t
  let words := words.filter (fun w => decide (w ∉ czStopwords))
  dedupLoop max_keywords [] [] words

/-- Embedding of `utils.traffic_light_from_score`. -/
def traffic_light_from_score (score : Int) : Str :=
  if 70 ≤ score then "red".data
  else if 35 ≤ score then "yellow".data
  else "green".data

/-- Criminal-law term list of `utils.infer_category`. -/
def trest_terms : List Str :=
  ([ "policie", "trestní", "trestný", "trestní oznámení", "obviněn", "obžaloba", "výpověď",
     "zadržení", "předvolání", "soud", "státní zástupce", "kriminálka",
     "napadení", "ublížení", "násilí", "vyhrožuje", "vydírání",
     "krádež", "loupež", "podvod", "drogy", "alkohol", "řízení pod vlivem",
     "vražda", "zavraždil", "zabil", "smrt", "usmrcení" ] : List String).map String.data

/-- Civil-law term list of `utils.infer_category`. -/
def obc_terms : List Str :=
  ([ "smlouva", "faktura", "nezaplatil", "neplatí", "dluh", "půjčka", "peníze",
     "žaloba", "výzva k úhradě", "náhrada škody", "škoda",
     "reklamace", "vrácení", "záruka", "spotřebitel",
     "pronájem", "nájem", "kauce", "soused", "plot", "hluk",
     "rozvod", "dědictví", "opatrovnictví", "péče o dítě",
     "zaměstnavatel", "výpověď z práce", "pracovní smlouva" ] : List String).map String.data

/-- General-legal-order term list of `utils.infer_category`. -/
def legal_terms : List Str :=
  ([ "jaký je zákon", "jaký zákon platí", "paragraf", "sbírka", "ústav",
     "jak to říká zákon", "co říká zákon", "právní předpis", "vyhláška",
     "judikatura", "nejvyšší soud", "nss", "ústavní soud" ] : List String).map String.data

/-- Official category labels used by `utils.infer_category`. -/
def catCrim : Str := "Trestní právo".data

/-- Official label of the civil-law category. -/
def catCivil : Str := "Občanské právo".data

/-- Official label of the general-legal-order category. -/
def catLegal : Str := "Právní řád ČR (obecně)".data

/-- The inner `score_for` of `utils.infer_category`: `+2` per term of the
list found as a substring of the prepared text. -/
def score_for (terms : List Str) (t : Str) : Nat :=
  terms.foldl (fun sc term => if hasSub term t then sc + 2 else sc) 0

/-- Embedding of `utils.infer_category`: score the three term lists on the normalized,
lowercased text; `max` over the insertion-ordered dict keeps the first
key attaining the maximum (Criminal, then Civil, then General); a
best score of 0 falls back to the general category. -/
def infer_category (user_text : Str) : Str :=
  let t := (normalize_text user_text).map pyLower
  let sT := score_for trest_terms t
  let sO := score_for obc_terms t
  let sL := score_for legal_terms t
  let best :=
    if sO > sT then (if sL > sO then (catLegal, sL) else (catCivil, sO))
    else (if sL > sT then (catLegal, sL) else (catCrim, sT))
  if best.2 = 0 then catLegal else best.1

/-- Red-flag term list of `utils.heuristic_risk_score` (each presence
adds 30). -/
def red_terms : List Str :=
  ([ "policie", "trestní oznámení", "obviněn", "obžaloba", "výpověď", "zadržení",
     "soud", "exekuce", "předvolání", "insolvence", "správní řízení",
     "vyhrožuje", "násilí", "napadení", "ublížení", "zabil", "vražda", "usmrcení", "krádež", "podvod",
     "dluh", "žaloba", "výzva k úhradě" ] : List String).map String.data

/-- Yellow term list of `utils.heuristic_risk_score` (each presence
adds 15). -/
def yellow_terms : List Str :=
  ([ "smlouva", "výpověď", "reklamace", "vrácení", "pokuta", "náhrada škody",
     "pronájem", "nájem", "rozvod", "dědictví", "dohoda", "zaměstnavatel",
     "odstoupení", "půjčka" ] : List String).map String.data

/-- Regex `\w` (word character), exact on Basic Latin, Latin-1 Supplement
and Latin Extended-A: ASCII alphanumerics, underscore, ª, µ, º and the
letters U+00C0..U+017F except × and ÷. -/
def isWordChRe (c : Char) : Bool :=
  let n := c.toNat
  (48 ≤ n && n ≤ 57) || (65 ≤ n && n ≤ 90) || (97 ≤ n && n ≤ 122) || n == 95 ||
    n == 170 || n == 181 || n == 186 ||
    (192 ≤ n && n ≤ 383 && !(n == 215) && !(n == 247))

/-- Decimal digit. -/
def isDigitCh (c : Char) : Bool := '0' ≤ c && c ≤ '9'

/-- The thousands-separator class `[ .]` of the money regex. -/
def isSepCh (c : Char) : Bool := c == ' ' || c == '.'

/-- A word boundary `\b` holds after a digit at this point of the text:
either the end of the text or a non-word character. -/
def reBoundary : Str → Bool
  | [] => true
  | c :: _ => !isWordChRe c

/-- Length of the leading digit run. -/
def digRun : Str → Nat
  | [] => 0
  | c :: t => if isDigitCh c then digRun t + 1 else 0

/-- Match `(?:[ .]\d{3})+\b` at this point of the text: at least one
group of a separator plus three digits, with a word boundary after the
last group (regex backtracking makes any group count acceptable, hence
the disjunction at every group end). -/
def moneyGroups : Str → Bool
  | s :: a :: b :: c :: rest =>
      isSepCh s && isDigitCh a && isDigitCh b && isDigitCh c &&
        (reBoundary rest || moneyGroups rest)
  | _ => false

/-- Match one alternative of the money regex starting exactly here
(the leading `\b` is checked by the caller): either a 1–3 digit run
followed by separator-grouped triples (`\d{1,3}(?:[ .]\d{3})+\b` — the
greedy run must stop at a separator, so the whole leading run must have
length at most 3), or a plain run of 4+ digits with a boundary after
(`\d{4,}\b` — backtracking inside the run always leaves a digit, i.e. a
word character, next, so only the full run can close the match). -/
def moneyAt (s : Str) : Bool :=
  let r := digRun s
  (1 ≤ r && r ≤ 3 && moneyGroups (s.drop r)) ||
    (4 ≤ r && reBoundary (s.drop r))

/-- Scan the text for a match of the money regex
`\b(\d{1,3}(?:[ .]\d{3})+|\d{4,})\b`; `prevWord` records whether the
previous character was a word character (for the leading boundary). -/
def hasMoneyAux (prevWord : Bool) : Str → Bool
  | [] => false
  | c :: rest => (!prevWord && moneyAt (c :: rest)) || hasMoneyAux (isWordChRe c) rest

/-- Presence of a monetary-amount-like pattern: `re.findall` of the money
regex returns a non-empty list. -/
def hasMoney (t : Str) : Bool :=
  hasMoneyAux false t

/-- The repeated term-scan loops of `utils.heuristic_risk_score`: add
`inc` to the running score for every term of the list present in `t`. -/
def addPresent (t : Str) (inc : Nat) (terms : List Str) (sc : Nat) : Nat :=
  terms.foldl (fun s term => if hasSub term t then s + inc else s) sc

/-- Embedding of `utils.heuristic_risk_score`: base 10, +30 per red term present,
+15 per yellow term present, +15 for a money pattern, +15 for an urgency
phrase, +10 when the lowercased category starts with "trest", clamped
to 100.  The text is lowercased but (unlike `infer_category`) not
normalized. -/
def heuristic_risk_score (user_text : Str) (category : Str) : Nat :=
  let t := user_text.map pyLower
  let score := 10
  let score := addPresent t 30 red_terms score
  let score := addPresent t 15 yellow_terms score
  let score := if hasMoney t then score + 15 else score
  let score :=
    if hasSub "do zítra".data t || hasSub "dnes".data t || hasSub "lhůt".data t
    then score + 15 else score
  let score := if isPrefOf "trest".data (category.map pyLower) then score + 10 else score
  min score 100

/-- An element of the `items` list of a day's payload, with the fields
`search_recent_decisions` reads (the `str(...)` coercions and the
`or []` null-guards of the source are absorbed by the typed fields). -/
structure RawItem where
  predmetRizeni : Str
  klicovaSlova : List Str
  zminenaUstanoveni : List Str
  jednaciCislo : Str
  soud : Str
  datumVydani : Str
  datumZverejneni : Str
  odkaz : Str
deriving DecidableEq

/-- The dataclass `justice_api.JusticeDecision`. -/
structure JusticeDecision where
  jednaci_cislo : Str
  soud : Str
  predmet_rizeni : Str
  datum_vydani : Str
  datum_zverejneni : Str
  klicova_slova : List Str
  zminena_ustanoveni : List Str
  odkaz : Str
  score : ℚ
deriving DecidableEq

/-- Outcome of one day's `fetch_day` call as observed by
`search_recent_decisions`: the call raised, the payload's `items` field
was not a list, or a list of items was obtained (a missing `items` key
yields the empty list via the `.get` default). -/
inductive DayFetch where
  | raise : DayFetch
  | notList : DayFetch
  | items : List RawItem → DayFetch

/-- The lowercase blob scanned for keyword overlap: the normalized
subject matter joined with the keyword and cited-provision strings by
single spaces, then lowercased. -/
def itemBlob (it : RawItem) : Str :=
  (List.intercalate [' ']
      ([normalize_text it.predmetRizeni] ++ it.klicovaSlova ++ it.zminenaUstanoveni)).map pyLower

/-- Number of question keywords occurring as substrings of the item's
blob (`sum(1 for kw in keywords if kw in blob)`). -/
def overlapOf (keywords : List Str) (it : RawItem) : Nat :=
  keywords.countP (fun kw => hasSub kw (itemBlob it))

/-- Construction of the `JusticeDecision` appended for a surviving item:
keyword and provision lists truncated to 10 entries, relevance score
`overlap / max(len(keywords), 1)`. -/
def toDecision (keywords : List Str) (it : RawItem) : JusticeDecision :=
  { jednaci_cislo := it.jednaciCislo
    soud := it.soud
    predmet_rizeni := normalize_text it.predmetRizeni
    datum_vydani := it.datumVydani
    datum_zverejneni := it.datumZverejneni
    klicova_slova := it.klicovaSlova.take 10
    zminena_ustanoveni := it.zminenaUstanoveni.take 10
    odkaz := it.odkaz
    score := (overlapOf keywords it : ℚ) / (max keywords.length 1 : ℚ) }

/-- The inner item loop of `search_recent_decisions`: items with zero
overlap are skipped (`continue`), the others are appended in order. -/
def dayItemsLoop (keywords : List Str) : List RawItem → List JusticeDecision
  | [] => []
  | it :: rest =>
    if overlapOf keywords it = 0 then dayItemsLoop keywords rest
    else toDecision keywords it :: dayItemsLoop keywords rest

/-- Candidates contributed by one day: nothing on a raised fetch or a
non-list `items` field; otherwise the item loop over the first
`max_items_per_day` items. -/
def dayCandidates (keywords : List Str) (max_items_per_day : Nat) : DayFetch → List JusticeDecision
  | .raise => []
  | .notList => []
  | .items l => dayItemsLoop keywords (l.take max_items_per_day)

/-- Comparison key of the final sort: descending relevance score. -/
def byScoreDesc (a b : JusticeDecision) : Prop := b.score ≤ a.score

instance : DecidableRel byScoreDesc := fun a b =>
  inferInstanceAs (Decidable (b.score ≤ a.score))

instance : IsTotal JusticeDecision byScoreDesc := ⟨fun a b => le_total b.score a.score⟩

instance : IsTrans JusticeDecision byScoreDesc :=
  ⟨fun _ _ _ h1 h2 => le_trans h2 h1⟩

/-- Embedding of `justice_api.search_recent_decisions`, with the remote day fetch
abstracted as an oracle `fetch : Nat → DayFetch` giving the outcome for
day offset `i` (today − i days): early return on no keywords or a
non-positive lookback; otherwise accumulate each day's candidates in
order, sort by descending score (Python's `list.sort` is stable, and a
stable descending sort is extensionally unique, here realized by
insertion sort) and return the first 5. -/
def search_recent_decisions (fetch : Nat → DayFetch) (question : Str)
    (lookback_days : Int) (max_items_per_day : Nat) : List JusticeDecision :=
  let keywords := extract_keywords question 12
  if keywords.isEmpty || lookback_days ≤ 0 then []
  else
    let candidates := (List.range lookback_days.toNat).foldl
      (fun acc i => acc ++ dayCandidates keywords max_items_per_day (fetch i)) []
    (candidates.insertionSort byScoreDesc).take 5

/-- Pair every element with its position, starting from `n`. -/
def withIdxFrom (n : Nat) : List JusticeDecision → List (Nat × JusticeDecision)
  | [] => []
  | a :: t => (n, a) :: withIdxFrom (n + 1) t

/-- Modelled from the spec: the antisymmetric order realizing "sort
descending by score (stable otherwise)" on position-tagged candidates —
strictly larger score first, ties broken by original position. -/
def lexScoreIdx (p q : Nat × JusticeDecision) : Prop :=
  q.2.score < p.2.score ∨ (p.2.score = q.2.score ∧ p.1 ≤ q.1)

instance : DecidableRel lexScoreIdx := fun p q =>
  inferInstanceAs (Decidable (q.2.score < p.2.score ∨ (p.2.score = q.2.score ∧ p.1 ≤ q.1)))

instance : IsTotal (Nat × JusticeDecision) lexScoreIdx := by
  constructor
  intro p q
  rcases lt_trichotomy p.2.score q.2.score with h | h | h
  · exact Or.inr (Or.inl h)
  · rcases Nat.le_total p.1 q.1 with hn | hn
    · exact Or.inl (Or.inr ⟨h, hn⟩)
    · exact Or.inr (Or.inr ⟨h.symm, hn⟩)
  · exact Or.inl (Or.inl h)

instance : IsTrans (Nat × JusticeDecision) lexScoreIdx := by
  constructor
  intro p q r hpq hqr
  rcases hpq with h1 | ⟨e1, n1⟩
  · rcases hqr with h2 | ⟨e2, _⟩
    · exact Or.inl (h2.trans h1)
    · exact Or.inl (e2 ▸ h1)
  · rcases hqr with h2 | ⟨e2, n2⟩
    · exact Or.inl (e1 ▸ h2)
    · exact Or.inr ⟨e1.trans e2, n1.trans n2⟩

/-- Modelled from the spec: the stable descending-by-score sort, defined
through the antisymmetric position-tagged order. -/
def stableSortByScoreDesc (l : List JusticeDecision) : List JusticeDecision :=
  ((withIdxFrom 0 l).insertionSort lexScoreIdx).map Prod.snd

/-- Modelled from the spec: the candidate pool described in §4.4 —
for every day offset in the lookback window, the overlap-filtered,
score-carrying projections of the first `max_items_per_day` fetched
items, in day order then item order. -/
def specCandidatePool (fetch : Nat → DayFetch) (keywords : List Str)
    (lookback_days : Int) (max_items_per_day : Nat) : List JusticeDecision :=
  (List.range lookback_days.toNat).flatMap
    (fun i => dayCandidates keywords max_items_per_day (fetch i))

/-- The pydantic `SourceItem` of `models.py`. -/
structure SourceItem where
  title : Str
  url : Str
  why_relevant : Str

/-- The pydantic `LawmateAnswer` of `models.py`; `traffic_light` is
constrained by its `Literal` type to one of the three light strings,
which theorems carry as an explicit hypothesis. -/
structure LawmateAnswer where
  traffic_light : Str
  risk_score : Int
  summary : Str
  what_to_do_now : List Str
  what_to_prepare : List Str
  relevant_laws : List Str
  important_deadlines : List Str
  when_to_contact_lawyer : List Str
  notes : List Str
  sources : List SourceItem

/-- The literal severity dict `order = {"green": 0, "yellow": 1, "red": 2}`
of `Worker.run` (total on the three traffic-light strings; other keys
would raise a `KeyError` in the source and are never produced by the
validated model answer or by `traffic_light_from_score`). -/
def lightOrder (l : Str) : Nat :=
  if l = "green".data then 0
  else if l = "yellow".data then 1
  else 2

/-- The merge step of `Worker.run` (`main_window.py` lines 78–84):
compute the heuristic score and light from the question and category; if
the heuristic light is strictly more severe, replace the answer's light
and raise its risk score to the maximum of the two; otherwise leave the
answer unchanged.  Returns the merged `(traffic_light, risk_score)`. -/
def Worker_merge (model_light : Str) (model_score : Int)
    (question category : Str) : Str × Int :=
  let heur := heuristic_risk_score question category
  let heur_light := traffic_light_from_score (heur : Int)
  if lightOrder model_light < lightOrder heur_light then (heur_light, max model_score (heur : Int))
  else (model_light, model_score)

/-- A raised Python exception as observed by the submission boundary:
its type name (`type(e).__name__`) and its message (`str(e)`). -/
structure PyErr where
  typeName : Str
  message : Str

/-- A row appended to the `messages` table by `db.add_message`, with the
fields the submission boundary fills in. -/
structure DbMessage where
  role : Str
  content : Str
  traffic_light : Str
  sources_json : Str

/-- The triple carried by the worker's `done` signal:
`(LawmateAnswer | Exception, light, sources_json)`. -/
def WorkerSignal := Except PyErr LawmateAnswer × Str × Str

/-- A minimal rendering of `json.dumps` on the answer's source list
(`ensure_ascii=False`), escaping backslashes and double quotes; emitted
only on the success path, which no claim inspects further. -/
def jsonEscapeStr (s : Str) : Str :=
  s.flatMap (fun c => if c == '\\' || c == '"' then ['\\', c] else [c])

/-- Serialize one source dict of the success-path `sources_json`. -/
def jsonOfSource (s : SourceItem) : Str :=
  "\x7b\"title\": \"".data ++ jsonEscapeStr s.title ++
    "\", \"url\": \"".data ++ jsonEscapeStr s.url ++
    "\", \"why_relevant\": \"".data ++ jsonEscapeStr s.why_relevant ++ "\"\x7d".data

/-- Serialize the success-path source list. -/
def jsonOfSources (l : List SourceItem) : Str :=
  "[".data ++ List.intercalate ", ".data (l.map jsonOfSource) ++ "]".data

/-- The emission behaviour of `Worker.run` (`main_window.py` lines
64–89): the whole retrieval–generation–merge pipeline runs inside one
`try`; its outcome is the `Except` argument.  A successful pipeline
emits the answer with its light and serialized sources; any raised
error is caught and emitted as `(e, "red", "[]")`. -/
def Worker_run_emit (outcome : Except PyErr LawmateAnswer) : WorkerSignal :=
  match outcome with
  | .ok ans => (.ok ans, ans.traffic_light, jsonOfSources ans.sources)
  | .error e => (.error e, "red".data, "[]".data)

/-- The error text built by `MainWindow.on_done` for a failed worker. -/
def errContent (e : PyErr) : Str :=
  "Nastala chyba: <b>".data ++ e.typeName ++ "</b><br>".data ++ e.message ++
    "<br><br>Tip: zkontroluj `.env` a provider.".data

/-- The persistence step of `MainWindow.on_done` (`main_window.py` lines
394–401): an exception result is saved as an assistant message carrying
the error text with `traffic_light="red"` and `sources_json="[]"`
(both literal in the source); a normal result is saved with the
signalled light and sources.  The success-path HTML body is abstracted
by the `render` argument, which no claim inspects. -/
def on_done (render : LawmateAnswer → Str) (sig : WorkerSignal) : DbMessage :=
  match sig with
  | (.error e, _, _) =>
    { role := "assistant".data, content := errContent e,
      traffic_light := "red".data, sources_json := "[]".data }
  | (.ok ans, light, sj) =>
    { role := "assistant".data, content := render ans,
      traffic_light := light, sources_json := sj }

/-- Modelled from the spec: light `a` is strictly more severe than light
`b` under the order green < yellow < red. -/
def moreSevere (a b : Str) : Prop :=
  (b = "green".data ∧ (a = "yellow".data ∨ a = "red".data)) ∨
    (b = "yellow".data ∧ a = "red".data)

/-- Number of red-flag terms present in the lowercased text. -/
def redCount (t : Str) : Nat :=
  red_terms.countP (fun term => hasSub term (t.map pyLower))

/-- Number of yellow terms present in the lowercased text. -/
def yellowCount (t : Str) : Nat :=
  yellow_terms.countP (fun term => hasSub term (t.map pyLower))

/-- The urgency-phrase test of `heuristic_risk_score` on the lowercased
text. -/
def urgencyFlag (t : Str) : Bool :=
  hasSub "do zítra".data (t.map pyLower) || hasSub "dnes".data (t.map pyLower) ||
    hasSub "lhůt".data (t.map pyLower)

/-- The `items` list carried by a day's fetch outcome (empty for a
raised fetch or a non-list field, which contribute no candidates). -/
def itemsOf : DayFetch → List RawItem
  | .raise => []
  | .notList => []
  | .items l => l

/-- A concrete decision item whose subject matter is the single word
"dluh", used to instantiate the retrieval theorems. -/
def probeItem : RawItem :=
  { predmetRizeni := "dluh".data, klicovaSlova := [], zminenaUstanoveni := [],
    jednaciCislo := [], soud := [], datumVydani := [], datumZverejneni := [],
    odkaz := [] }

/-- A concrete fetch oracle: day 0 raises, every later day returns the
single probe item. -/
def probeFetch : Nat → DayFetch :=
  fun i => if i = 0 then .raise else .items [probeItem]


/-! ### Helper lemmas -/

theorem tl_mem (s : Int) :
    traffic_light_from_score s = "green".data ∨
      traffic_light_from_score s = "yellow".data ∨
      traffic_light_from_score s = "red".data := by
  unfold traffic_light_from_score
  split_ifs
  · exact Or.inr (Or.inr rfl)
  · exact Or.inr (Or.inl rfl)
  · exact Or.inl rfl

instance (a b : Str) : Decidable (moreSevere a b) :=
  inferInstanceAs (Decidable ((b = "green".data ∧ (a = "yellow".data ∨ a = "red".data)) ∨
    (b = "yellow".data ∧ a = "red".data)))

theorem moreSevere_iff_lightOrder {a b : Str}
    (ha : a = "green".data ∨ a = "yellow".data ∨ a = "red".data)
    (hb : b = "green".data ∨ b = "yellow".data ∨ b = "red".data) :
    moreSevere a b ↔ lightOrder b < lightOrder a := by
  rcases ha with h | h | h <;> rcases hb with h' | h' | h' <;> subst h <;> subst h' <;> decide

theorem Worker_merge_eq (ml : Str) (ms : Int) (q c : Str) :
    Worker_merge ml ms q c =
      if lightOrder ml < lightOrder (traffic_light_from_score (heuristic_risk_score q c : Int))
      then (traffic_light_from_score (heuristic_risk_score q c : Int),
            max ms (heuristic_risk_score q c : Int))
      else (ml, ms) := rfl

theorem isPrefOf_append (n t : Str) : isPrefOf n (n ++ t) = true := by
  induction n with
  | nil => rfl
  | cons a as ih => simp [isPrefOf, ih]

theorem hasSub_cons_of (n : Str) (c : Char) (t : Str) (h : hasSub n t = true) :
    hasSub n (c :: t) = true := by
  show (isPrefOf n (c :: t) || hasSub n t) = true
  rw [h]
  exact Bool.or_true _

theorem hasSub_here (n t : Str) : hasSub n (n ++ t) = true := by
  cases n with
  | nil =>
    cases t with
    | nil => rfl
    | cons c t' => rfl
  | cons a as =>
    show (isPrefOf (a :: as) (a :: (as ++ t)) || hasSub (a :: as) (as ++ t)) = true
    have h : isPrefOf (a :: as) (a :: (as ++ t)) = true := isPrefOf_append (a :: as) t
    rw [h]
    rfl

theorem hasSub_of_append (pre n post : Str) : hasSub n (pre ++ (n ++ post)) = true := by
  induction pre with
  | nil =>
    simp only [List.nil_append]
    exact hasSub_here n post
  | cons c pre' ih => exact hasSub_cons_of n c (pre' ++ (n ++ post)) ih

/-! ### Claim theorems -/

/-- C1: for every model answer light and score and every question and
category, if the heuristic traffic light (derived from the heuristic
risk score) is strictly more severe than the model's under the order
green < yellow < red, the merged answer carries the heuristic light and
the maximum of the two scores; otherwise the model's light and score
are kept unchanged. -/
theorem C1_merge_policy (model_light : Str) (model_score : Int) (question category : Str)
    (hml : model_light = "green".data ∨ model_light = "yellow".data ∨
      model_light = "red".data) :
    (moreSevere (traffic_light_from_score (heuristic_risk_score question category : Int))
        model_light →
      Worker_merge model_light model_score question category
        = (traffic_light_from_score (heuristic_risk_score question category : Int),
           max model_score (heuristic_risk_score question category : Int))) ∧
    (¬ moreSevere (traffic_light_from_score (heuristic_risk_score question category : Int))
        model_light →
      Worker_merge model_light model_score question category = (model_light, model_score)) := by
  have hiff := moreSevere_iff_lightOrder
    (tl_mem (heuristic_risk_score question category : Int)) hml
  rw [Worker_merge_eq]
  constructor
  · intro h
    rw [if_pos (hiff.mp h)]
  · intro h
    rw [if_neg (fun hc => h (hiff.mpr hc))]

theorem C1_merge_policy_witness :
    Worker_merge "green".data 20 "policie".data "Občanské právo".data = ("yellow".data, 40) := by
  have h := (C1_merge_policy "green".data 20 "policie".data "Občanské právo".data
    (Or.inl rfl)).1 (by decide)
  exact h.trans (by decide)

/-- C6: `traffic_light_from_score` returns red iff the score is at least
70, yellow iff it lies in [35, 70), green otherwise, with the six
boundary values mapped exactly as the spec lists them. -/
theorem C6_traffic_light_spec :
    (∀ s : Int,
      (traffic_light_from_score s = "red".data ↔ 70 ≤ s) ∧
      (traffic_light_from_score s = "yellow".data ↔ 35 ≤ s ∧ s < 70) ∧
      (traffic_light_from_score s = "green".data ↔ s < 35)) ∧
    traffic_light_from_score 0 = "green".data ∧
    traffic_light_from_score 34 = "green".data ∧
    traffic_light_from_score 35 = "yellow".data ∧
    traffic_light_from_score 69 = "yellow".data ∧
    traffic_light_from_score 70 = "red".data ∧
    traffic_light_from_score 100 = "red".data := by
  refine ⟨fun s => ?_, by decide, by decide, by decide, by decide, by decide, by decide⟩
  unfold traffic_light_from_score
  split_ifs with h1 h2
  · exact ⟨⟨fun _ => h1, fun _ => rfl⟩,
      ⟨fun h => absurd h (by decide), fun h => absurd h1 (by omega)⟩,
      ⟨fun h => absurd h (by decide), fun h => absurd h1 (by omega)⟩⟩
  · exact ⟨⟨fun h => absurd h (by decide), fun h => absurd h h1⟩,
      ⟨fun _ => ⟨h2, by omega⟩, fun _ => rfl⟩,
      ⟨fun h => absurd h (by decide), fun h => absurd h2 (by omega)⟩⟩
  · exact ⟨⟨fun h => absurd h (by decide), fun h => absurd h h1⟩,
      ⟨fun h => absurd h (by decide), fun h => absurd h.1 h2⟩,
      ⟨fun _ => by omega, fun _ => rfl⟩⟩

theorem C6_traffic_light_spec_witness :
    traffic_light_from_score (-5) = "green".data :=
  ((C6_traffic_light_spec.1 (-5)).2.2).mpr (by decide)

/-- C9: every pipeline error reaching the submission boundary is caught
and persisted as an assistant-role message whose content carries the
error type, the error message and the configuration hint, with the
traffic light forced to red and an empty sources list. -/
theorem C9_error_boundary (render : LawmateAnswer → Str) (e : PyErr) :
    (on_done render (Worker_run_emit (.error e))).role = "assistant".data ∧
    (on_done render (Worker_run_emit (.error e))).traffic_light = "red".data ∧
    (on_done render (Worker_run_emit (.error e))).sources_json = "[]".data ∧
    (on_done render (Worker_run_emit (.error e))).content = errContent e ∧
    hasSub e.typeName (on_done render (Worker_run_emit (.error e))).content = true ∧
    hasSub e.message (on_done render (Worker_run_emit (.error e))).content = true ∧
    hasSub "Tip: zkontroluj".data (on_done render (Worker_run_emit (.error e))).content
      = true := by
  refine ⟨rfl, rfl, rfl, rfl, ?_, ?_, ?_⟩
  · show hasSub e.typeName (errContent e) = true
    have h := hasSub_of_append ("Nastala chyba: <b>".data) e.typeName
      ("</b><br>".data ++ e.message ++ "<br><br>Tip: zkontroluj `.env` a provider.".data)
    simpa [errContent, List.append_assoc] using h
  · show hasSub e.message (errContent e) = true
    have h := hasSub_of_append
      ("Nastala chyba: <b>".data ++ e.typeName ++ "</b><br>".data) e.message
      ("<br><br>Tip: zkontroluj `.env` a provider.".data)
    simpa [errContent, List.append_assoc] using h
  · show hasSub "Tip: zkontroluj".data (errContent e) = true
    have hsplit : ("<br><br>Tip: zkontroluj `.env` a provider.".data : Str)
        = "<br><br>".data ++ ("Tip: zkontroluj".data ++ " `.env` a provider.".data) := by
      decide
    have h := hasSub_of_append
      ("Nastala chyba: <b>".data ++ e.typeName ++ "</b><br>".data ++ e.message
        ++ "<br><br>".data)
      ("Tip: zkontroluj".data) (" `.env` a provider.".data)
    simp only [errContent, hsplit]
    simpa [List.append_assoc] using h

/-- C5: with an empty extracted keyword list or a non-positive lookback,
`search_recent_decisions` returns the empty list, and its result does
not depend on the fetch oracle at all (no remote call is consulted). -/
theorem C5_early_return (fetch : Nat → DayFetch) (question : Str) (ld : Int) (mi : Nat)
    (h : extract_keywords question 12 = [] ∨ ld ≤ 0) :
    search_recent_decisions fetch question ld mi = [] ∧
    ∀ g : Nat → DayFetch,
      search_recent_decisions fetch question ld mi
        = search_recent_decisions g question ld mi := by
  have hb : ((extract_keywords question 12).isEmpty || decide (ld ≤ 0)) = true := by
    rcases h with h | h
    · rw [h]
      rfl
    · simp [h]
  constructor
  · simp only [search_recent_decisions]
    rw [if_pos hb]
  · intro g
    simp only [search_recent_decisions]
    rw [if_pos hb, if_pos hb]

theorem C5_early_return_witness :
    search_recent_decisions (fun _ => DayFetch.raise) "".data 14 200 = [] :=
  (C5_early_return (fun _ => DayFetch.raise) "".data 14 200 (Or.inl (by decide))).1

theorem dedupLoop_length (cap : Nat) (ws : List Str) :
    ∀ seen out, out.length < cap → (dedupLoop cap seen out ws).length ≤ cap := by
  induction ws with
  | nil =>
    intro seen out h
    simpa [dedupLoop] using Nat.le_of_lt h
  | cons w ws ih =>
    intro seen out h
    simp only [dedupLoop]
    split_ifs with h1 h2
    · exact ih seen out h
    · simp only [List.length_reverse, List.length_cons]
      omega
    · refine ih _ _ ?_
      simp only [List.length_cons] at h2 ⊢
      omega

theorem dedupLoop_nodup (cap : Nat) (ws : List Str) :
    ∀ seen out, out.Nodup → (∀ x ∈ out, x ∈ seen) →
      (dedupLoop cap seen out ws).Nodup := by
  induction ws with
  | nil =>
    intro seen out h1 _
    simpa [dedupLoop] using h1
  | cons w ws ih =>
    intro seen out h1 h2
    simp only [dedupLoop]
    split_ifs with hin hcap
    · exact ih seen out h1 h2
    · rw [List.nodup_reverse]
      exact List.nodup_cons.mpr ⟨fun hm => hin (h2 w hm), h1⟩
    · refine ih _ _ (List.nodup_cons.mpr ⟨fun hm => hin (h2 w hm), h1⟩) ?_
      intro x hx
      rcases List.mem_cons.mp hx with h | h
      · exact h ▸ List.mem_cons_self _ _
      · exact List.mem_cons_of_mem _ (h2 x h)

theorem dedupLoop_subset (cap : Nat) (ws : List Str) :
    ∀ seen out x, x ∈ dedupLoop cap seen out ws → x ∈ out ∨ x ∈ ws := by
  induction ws with
  | nil =>
    intro seen out x hx
    simp only [dedupLoop] at hx
    left
    exact List.mem_reverse.mp hx
  | cons w ws ih =>
    intro seen out x hx
    simp only [dedupLoop] at hx
    split_ifs at hx with hin hcap
    · rcases ih _ _ _ hx with h | h
      · exact Or.inl h
      · exact Or.inr (List.mem_cons_of_mem _ h)
    · rcases List.mem_cons.mp (List.mem_reverse.mp hx) with h | h
      · exact Or.inr (h ▸ List.mem_cons_self _ _)
      · exact Or.inl h
    · rcases ih _ _ _ hx with h | h
      · rcases List.mem_cons.mp h with h' | h'
        · exact Or.inr (h' ▸ List.mem_cons_self _ _)
        · exact Or.inl h'
      · exact Or.inr (List.mem_cons_of_mem _ h)

/-- C2 counterexample: with `max_keywords = 0` the extractor still emits
one token, because the source checks the cap only after appending — so
the returned sequence can be longer than `max_keywords`. -/
theorem C2_cap_counterexample :
    ¬ ((extract_keywords "abc".data 0).length ≤ 0) := by decide

/-- C2 (amended): the extracted keyword sequence has no duplicates and
no stopwords for every text and cap, the empty input yields the empty
sequence, and the length never exceeds the cap whenever the cap is at
least 1 (for cap 0 one token can slip through, see the counterexample). -/
theorem C2_keyword_invariants (text : Str) (cap : Nat) :
    (extract_keywords text cap).Nodup ∧
    (∀ w ∈ extract_keywords text cap, w ∉ czStopwords) ∧
    (1 ≤ cap → (extract_keywords text cap).length ≤ cap) ∧
    extract_keywords [] cap = [] := by
  refine ⟨?_, ?_, ?_, ?_⟩
  · show (dedupLoop cap [] []
      ((findAllWords ((normalize_text text).map pyLower)).filter
        (fun w => decide (w ∉ czStopwords)))).Nodup
    exact dedupLoop_nodup cap _ [] [] List.nodup_nil (by intro x hx; cases hx)
  · intro w hw
    have h := dedupLoop_subset cap
      ((findAllWords ((normalize_text text).map pyLower)).filter
        (fun w => decide (w ∉ czStopwords))) [] [] w hw
    rcases h with h | h
    · cases h
    · exact of_decide_eq_true (List.mem_filter.mp h).2
  · intro hcap
    show (dedupLoop cap [] []
      ((findAllWords ((normalize_text text).map pyLower)).filter
        (fun w => decide (w ∉ czStopwords)))).length ≤ cap
    exact dedupLoop_length cap _ [] [] (by simpa using hcap)
  · rfl

theorem C2_keyword_invariants_witness :
    (extract_keywords "Mám dluh dluh u sousedy".data 12).length ≤ 12 :=
  (C2_keyword_invariants "Mám dluh dluh u sousedy".data 12).2.2.1 (by decide)

theorem addPresent_eq (t : Str) (inc : Nat) (terms : List Str) :
    ∀ sc, addPresent t inc terms sc
      = sc + inc * terms.countP (fun term => hasSub term t) := by
  induction terms with
  | nil =>
    intro sc
    simp [addPresent]
  | cons a l ih =>
    intro sc
    simp only [addPresent, List.foldl_cons] at ih ⊢
    by_cases h : hasSub a t = true
    · rw [if_pos h, ih (sc + inc), List.countP_cons, if_pos h]
      ring
    · rw [if_neg h, ih sc, List.countP_cons, if_neg h]
      ring

theorem heuristic_closed_form (t c : Str) :
    heuristic_risk_score t c
      = min (10 + 30 * redCount t + 15 * yellowCount t
          + (if hasMoney (t.map pyLower) then 15 else 0)
          + (if urgencyFlag t then 15 else 0)
          + (if isPrefOf "trest".data (c.map pyLower) then 10 else 0)) 100 := by
  simp only [heuristic_risk_score, redCount, yellowCount, urgencyFlag]
  rw [addPresent_eq, addPresent_eq]
  split_ifs <;> omega

/-- C7: the heuristic risk score never exceeds 100; a text with no
red-flag term, no yellow term, no money pattern and no urgency phrase,
under a category not starting with "trest", scores exactly 10; and the
score is monotonically non-decreasing in the number of red and yellow
terms present when the remaining signals agree. -/
theorem C7_risk_monotone_bounded :
    (∀ t c, heuristic_risk_score t c ≤ 100) ∧
    (∀ t c, redCount t = 0 → yellowCount t = 0 →
      hasMoney (t.map pyLower) = false → urgencyFlag t = false →
      isPrefOf "trest".data (c.map pyLower) = false →
      heuristic_risk_score t c = 10) ∧
    (∀ t1 t2 c, redCount t1 ≤ redCount t2 → yellowCount t1 ≤ yellowCount t2 →
      hasMoney (t1.map pyLower) = hasMoney (t2.map pyLower) →
      urgencyFlag t1 = urgencyFlag t2 →
      heuristic_risk_score t1 c ≤ heuristic_risk_score t2 c) := by
  refine ⟨?_, ?_, ?_⟩
  · intro t c
    rw [heuristic_closed_form]
    exact Nat.min_le_right _ _
  · intro t c h1 h2 h3 h4 h5
    rw [heuristic_closed_form, h1, h2]
    simp [h3, h4, h5]
  · intro t1 t2 c h1 h2 h3 h4
    rw [heuristic_closed_form, heuristic_closed_form, h3, h4]
    refine min_le_min ?_ (le_refl 100)
    have hr : 30 * redCount t1 ≤ 30 * redCount t2 := Nat.mul_le_mul_left _ h1
    have hy : 15 * yellowCount t1 ≤ 15 * yellowCount t2 := Nat.mul_le_mul_left _ h2
    exact Nat.add_le_add_right (Nat.add_le_add_right
      (Nat.add_le_add_right (Nat.add_le_add (Nat.add_le_add (Nat.le_refl 10) hr) hy) _) _) _

theorem C7_risk_monotone_bounded_witness :
    heuristic_risk_score "ahoj".data "Občanské právo".data = 10 ∧
    heuristic_risk_score "ahoj".data "Občanské právo".data
      ≤ heuristic_risk_score "policie ahoj".data "Občanské právo".data :=
  ⟨C7_risk_monotone_bounded.2.1 "ahoj".data "Občanské právo".data (by decide) (by decide)
      (by decide) (by decide) (by decide),
    C7_risk_monotone_bounded.2.2 "ahoj".data "policie ahoj".data "Občanské právo".data
      (by decide) (by decide) (by decide) (by decide)⟩

/-- C10: the red and yellow term lists share the term "výpověď", so a
text containing "výpověď" and no other red or yellow term, with no money
pattern, no urgency phrase and a non-criminal category, collects both
additions: 10 + 30 + 15 = 55. -/
theorem C10_shared_vypoved :
    "výpověď".data ∈ red_terms ∧ "výpověď".data ∈ yellow_terms ∧
    ∀ t c, hasSub "výpověď".data (t.map pyLower) = true →
      (∀ term ∈ red_terms, term ≠ "výpověď".data → hasSub term (t.map pyLower) = false) →
      (∀ term ∈ yellow_terms, term ≠ "výpověď".data → hasSub term (t.map pyLower) = false) →
      hasMoney (t.map pyLower) = false → urgencyFlag t = false →
      isPrefOf "trest".data (c.map pyLower) = false →
      heuristic_risk_score t c = 55 := by
  refine ⟨by decide, by decide, ?_⟩
  intro t c hv hred hyel hm hu hc
  have hcong : ∀ terms : List Str,
      (∀ term ∈ terms, term ≠ "výpověď".data → hasSub term (t.map pyLower) = false) →
      terms.countP (fun term => hasSub term (t.map pyLower))
        = terms.countP (fun term => term == "výpověď".data) := by
    intro terms hterms
    refine List.countP_congr ?_
    intro x hx
    by_cases hxv : x = "výpověď".data
    · subst hxv
      simp [hv]
    · simp [hterms x hx hxv, hxv]
  have hr : redCount t = 1 := by
    unfold redCount
    rw [hcong red_terms hred]
    decide
  have hy : yellowCount t = 1 := by
    unfold yellowCount
    rw [hcong yellow_terms hyel]
    decide
  rw [heuristic_closed_form, hr, hy]
  simp [hm, hu, hc]

theorem C10_shared_vypoved_witness :
    heuristic_risk_score "výpověď".data "Občanské právo".data = 55 :=
  C10_shared_vypoved.2.2 "výpověď".data "Občanské právo".data (by decide) (by decide)
    (by decide) (by decide) (by decide) (by decide)

/-- C8: `infer_category` returns the domain with the strictly highest
score, ties resolved in declaration order (Criminal, then Civil, then
General), and falls back to the general category when all three scores
are zero. -/
theorem C8_category_selection (t : Str) :
    (0 < score_for trest_terms ((normalize_text t).map pyLower) →
      score_for obc_terms ((normalize_text t).map pyLower)
        ≤ score_for trest_terms ((normalize_text t).map pyLower) →
      score_for legal_terms ((normalize_text t).map pyLower)
        ≤ score_for trest_terms ((normalize_text t).map pyLower) →
      infer_category t = catCrim) ∧
    (score_for trest_terms ((normalize_text t).map pyLower)
        < score_for obc_terms ((normalize_text t).map pyLower) →
      score_for legal_terms ((normalize_text t).map pyLower)
        ≤ score_for obc_terms ((normalize_text t).map pyLower) →
      infer_category t = catCivil) ∧
    (score_for trest_terms ((normalize_text t).map pyLower)
        < score_for legal_terms ((normalize_text t).map pyLower) →
      score_for obc_terms ((normalize_text t).map pyLower)
        < score_for legal_terms ((normalize_text t).map pyLower) →
      infer_category t = catLegal) ∧
    (score_for trest_terms ((normalize_text t).map pyLower) = 0 →
      score_for obc_terms ((normalize_text t).map pyLower) = 0 →
      score_for legal_terms ((normalize_text t).map pyLower) = 0 →
      infer_category t = catLegal) := by
  set sT := score_for trest_terms ((normalize_text t).map pyLower) with hsT
  set sO := score_for obc_terms ((normalize_text t).map pyLower) with hsO
  set sL := score_for legal_terms ((normalize_text t).map pyLower) with hsL
  have hbody : infer_category t
      = (if (if sO > sT then (if sL > sO then (catLegal, sL) else (catCivil, sO))
             else (if sL > sT then (catLegal, sL) else (catCrim, sT))).2 = 0
         then catLegal
         else (if sO > sT then (if sL > sO then (catLegal, sL) else (catCivil, sO))
               else (if sL > sT then (catLegal, sL) else (catCrim, sT))).1) := rfl
  rw [hbody]
  refine ⟨fun h1 h2 h3 => ?_, fun h1 h2 => ?_, fun h1 h2 => ?_, fun h1 h2 h3 => ?_⟩
  · rw [if_neg (show ¬ sO > sT by omega), if_neg (show ¬ sL > sT by omega),
      if_neg (show ¬ sT = 0 by omega)]
  · rw [if_pos (show sO > sT from h1), if_neg (show ¬ sL > sO by omega),
      if_neg (show ¬ sO = 0 by omega)]
  · by_cases hc : sO > sT
    · rw [if_pos hc, if_pos (show sL > sO from h2), if_neg (show ¬ sL = 0 by omega)]
    · rw [if_neg hc, if_pos (show sL > sT from h1), if_neg (show ¬ sL = 0 by omega)]
  · rw [if_neg (show ¬ sO > sT by omega), if_neg (show ¬ sL > sT by omega),
      if_pos (show sT = 0 from h1)]

theorem C8_category_selection_witness :
    infer_category "trestní oznámení".data = catCrim ∧
    infer_category "dobrý den".data = catLegal :=
  ⟨(C8_category_selection "trestní oznámení".data).1 (by decide) (by decide) (by decide),
    (C8_category_selection "dobrý den".data).2.2.2 (by decide) (by decide) (by decide)⟩

theorem foldl_append_eq {α β : Type} (L : List β) (f : β → List α) :
    ∀ acc, L.foldl (fun a i => a ++ f i) acc = acc ++ L.flatMap f := by
  induction L with
  | nil =>
    intro acc
    simp
  | cons b L ih =>
    intro acc
    simp only [List.foldl_cons, List.flatMap_cons]
    rw [ih]
    simp [List.append_assoc]

theorem dayCandidates_eq (ks : List Str) (mi : Nat) (df : DayFetch) :
    dayCandidates ks mi df = dayItemsLoop ks ((itemsOf df).take mi) := by
  cases df <;> simp [dayCandidates, itemsOf, List.take_nil, dayItemsLoop]

theorem search_eq_pool (fetch : Nat → DayFetch) (q : Str) (ld : Int) (mi : Nat)
    (h : ((extract_keywords q 12).isEmpty || decide (ld ≤ 0)) = false) :
    search_recent_decisions fetch q ld mi
      = ((specCandidatePool fetch (extract_keywords q 12) ld mi).insertionSort
          byScoreDesc).take 5 := by
  simp only [search_recent_decisions]
  rw [if_neg (by simp [h])]
  rw [foldl_append_eq]
  simp [specCandidatePool]

theorem mem_dayItemsLoop (ks : List Str) (d : JusticeDecision) :
    ∀ l : List RawItem, d ∈ dayItemsLoop ks l
      ↔ ∃ it ∈ l, overlapOf ks it ≠ 0 ∧ d = toDecision ks it := by
  intro l
  induction l with
  | nil => simp [dayItemsLoop]
  | cons it rest ih =>
    simp only [dayItemsLoop]
    split_ifs with h
    · rw [ih]
      constructor
      · rintro ⟨x, hx, hov, hd⟩
        exact ⟨x, List.mem_cons_of_mem _ hx, hov, hd⟩
      · rintro ⟨x, hx, hov, hd⟩
        rcases List.mem_cons.mp hx with he | he
        · subst he
          exact absurd h hov
        · exact ⟨x, he, hov, hd⟩
    · simp only [List.mem_cons]
      constructor
      · rintro (he | hd)
        · exact ⟨it, Or.inl rfl, h, he⟩
        · rcases ih.mp hd with ⟨x, hx, hov, hdd⟩
          exact ⟨x, Or.inr hx, hov, hdd⟩
      · rintro ⟨x, hx, hov, hd⟩
        rcases hx with he | he
        · subst he
          exact Or.inl hd
        · exact Or.inr (ih.mpr ⟨x, he, hov, hd⟩)

theorem withIdxFrom_fst_le :
    ∀ (l : List JusticeDecision) (n : Nat) (p : Nat × JusticeDecision),
      p ∈ withIdxFrom n l → n ≤ p.1 := by
  intro l
  induction l with
  | nil =>
    intro n p hp
    cases hp
  | cons a t ih =>
    intro n p hp
    rcases List.mem_cons.mp hp with he | he
    · subst he
      exact Nat.le_refl n
    · exact Nat.le_of_succ_le (ih (n + 1) p he)

theorem map_snd_orderedInsert (n : Nat) (a : JusticeDecision) :
    ∀ L : List (Nat × JusticeDecision), (∀ p ∈ L, n < p.1) →
      (L.orderedInsert lexScoreIdx (n, a)).map Prod.snd
        = ((L.map Prod.snd).orderedInsert byScoreDesc a) := by
  intro L
  induction L with
  | nil =>
    intro _
    rfl
  | cons q L ih =>
    intro hL
    obtain ⟨j, b⟩ := q
    have hj : n < j := hL (j, b) (List.mem_cons_self _ _)
    have hiff : lexScoreIdx (n, a) (j, b) ↔ byScoreDesc a b := by
      unfold lexScoreIdx byScoreDesc
      constructor
      · rintro (h | ⟨h, _⟩)
        · exact le_of_lt h
        · exact le_of_eq h.symm
      · intro h
        rcases lt_or_eq_of_le h with h' | h'
        · exact Or.inl h'
        · exact Or.inr ⟨h'.symm, Nat.le_of_lt hj⟩
    simp only [List.map_cons, List.orderedInsert]
    rw [if_congr hiff rfl rfl]
    split_ifs with hcond
    · simp
    · simp only [List.map_cons]
      rw [ih (fun p hp => hL p (List.mem_cons_of_mem _ hp))]

theorem stable_sort_aux :
    ∀ (l : List JusticeDecision) (n : Nat),
      ((withIdxFrom n l).insertionSort lexScoreIdx).map Prod.snd
        = l.insertionSort byScoreDesc := by
  intro l
  induction l with
  | nil =>
    intro n
    rfl
  | cons a t ih =>
    intro n
    show ((List.orderedInsert lexScoreIdx (n, a)
        ((withIdxFrom (n + 1) t).insertionSort lexScoreIdx)).map Prod.snd)
      = List.orderedInsert byScoreDesc a (t.insertionSort byScoreDesc)
    rw [map_snd_orderedInsert n a ((withIdxFrom (n + 1) t).insertionSort lexScoreIdx)
      (fun p hp => Nat.lt_of_succ_le (withIdxFrom_fst_le t (n + 1) p
        ((List.perm_insertionSort lexScoreIdx (withIdxFrom (n + 1) t)).mem_iff.mp hp)))]
    rw [ih (n + 1)]

theorem stableSort_eq (l : List JusticeDecision) :
    stableSortByScoreDesc l = l.insertionSort byScoreDesc :=
  stable_sort_aux l 0

/-- C3: a raised fetch for one day is equivalent to that day yielding no
items (only that day is skipped, the other days still contribute), and
when some other day in the window supplies an item with keyword overlap,
the overall result is non-empty despite the failure. -/
theorem C3_single_day_failure (fetch : Nat → DayFetch) (question : Str) (ld : Int)
    (mi : Nat) (j : Nat) (hj : fetch j = DayFetch.raise) :
    (search_recent_decisions fetch question ld mi
      = search_recent_decisions (fun i => if i = j then DayFetch.items [] else fetch i)
          question ld mi) ∧
    (∀ i, i < ld.toNat → i ≠ j →
      ∀ l : List RawItem, fetch i = DayFetch.items l →
      ∀ it ∈ l.take mi, overlapOf (extract_keywords question 12) it ≠ 0 →
      search_recent_decisions fetch question ld mi ≠ []) := by
  constructor
  · cases hb : ((extract_keywords question 12).isEmpty || decide (ld ≤ 0)) with
    | true =>
      simp only [search_recent_decisions]
      rw [if_pos hb, if_pos hb]
    | false =>
      rw [search_eq_pool fetch question ld mi hb, search_eq_pool _ question ld mi hb]
      have hpool : specCandidatePool fetch (extract_keywords question 12) ld mi
          = specCandidatePool (fun i => if i = j then DayFetch.items [] else fetch i)
              (extract_keywords question 12) ld mi := by
        unfold specCandidatePool
        congr 1
        funext i
        by_cases hij : i = j
        · subst hij
          simp [hj, dayCandidates, dayItemsLoop, List.take_nil]
        · simp [hij]
      rw [hpool]
  · intro i hi hij l hl it hit hov
    have hks : extract_keywords question 12 ≠ [] := by
      intro hk
      rw [hk] at hov
      exact hov rfl
    have hld : ¬ ld ≤ 0 := by omega
    have hb : ((extract_keywords question 12).isEmpty || decide (ld ≤ 0)) = false := by
      cases hemp : (extract_keywords question 12).isEmpty with
      | true => exact absurd (List.isEmpty_iff.mp hemp) hks
      | false => rw [decide_eq_false hld]; rfl
    rw [search_eq_pool fetch question ld mi hb]
    have hmem : toDecision (extract_keywords question 12) it
        ∈ specCandidatePool fetch (extract_keywords question 12) ld mi := by
      unfold specCandidatePool
      rw [List.mem_flatMap]
      refine ⟨i, List.mem_range.mpr hi, ?_⟩
      rw [dayCandidates_eq, hl]
      exact (mem_dayItemsLoop _ _ _).mpr ⟨it, hit, hov, rfl⟩
    intro hemp
    have hlen : (((specCandidatePool fetch (extract_keywords question 12) ld
        mi).insertionSort byScoreDesc).take 5).length = 0 := by
      rw [hemp]
      rfl
    rw [List.length_take, List.length_insertionSort] at hlen
    have hpos : 0 < (specCandidatePool fetch (extract_keywords question 12) ld mi).length :=
      List.length_pos.mpr (List.ne_nil_of_mem hmem)
    omega

theorem C3_single_day_failure_witness :
    search_recent_decisions probeFetch "dluh".data 2 200 ≠ [] :=
  (C3_single_day_failure probeFetch "dluh".data 2 200 0 rfl).2 1 (by decide) (by decide)
    [probeItem] rfl probeItem (by decide) (by decide)

/-- C4: whenever the scan actually runs, the result of
`search_recent_decisions` is exactly the first 5 elements of the stable
descending-by-score sort of the candidate pool; its length is the
minimum of 5 and the pool size; it is sorted by descending score; every
returned decision has a relevance score in (0, 1]; and every pool
candidate arises from a fetched in-range item with non-zero keyword
overlap (zero-overlap items are discarded). -/
theorem C4_filter_score_rank (fetch : Nat → DayFetch) (question : Str) (ld : Int)
    (mi : Nat)
    (hb : ((extract_keywords question 12).isEmpty || decide (ld ≤ 0)) = false) :
    search_recent_decisions fetch question ld mi
      = (stableSortByScoreDesc
          (specCandidatePool fetch (extract_keywords question 12) ld mi)).take 5 ∧
    (search_recent_decisions fetch question ld mi).length
      = min 5 (specCandidatePool fetch (extract_keywords question 12) ld mi).length ∧
    List.Sorted byScoreDesc (search_recent_decisions fetch question ld mi) ∧
    (∀ d ∈ search_recent_decisions fetch question ld mi, 0 < d.score ∧ d.score ≤ 1) ∧
    (∀ d ∈ specCandidatePool fetch (extract_keywords question 12) ld mi,
      ∃ i < ld.toNat, ∃ it ∈ (itemsOf (fetch i)).take mi,
        overlapOf (extract_keywords question 12) it ≠ 0 ∧
        d = toDecision (extract_keywords question 12) it) := by
  have heq := search_eq_pool fetch question ld mi hb
  have hpool : ∀ d ∈ specCandidatePool fetch (extract_keywords question 12) ld mi,
      ∃ i < ld.toNat, ∃ it ∈ (itemsOf (fetch i)).take mi,
        overlapOf (extract_keywords question 12) it ≠ 0 ∧
        d = toDecision (extract_keywords question 12) it := by
    intro d hd
    unfold specCandidatePool at hd
    rw [List.mem_flatMap] at hd
    obtain ⟨i, hi, hdi⟩ := hd
    rw [dayCandidates_eq] at hdi
    obtain ⟨it, hit, hov, hde⟩ := (mem_dayItemsLoop _ _ _).mp hdi
    exact ⟨i, List.mem_range.mp hi, it, hit, hov, hde⟩
  refine ⟨by rw [heq, stableSort_eq], ?_, ?_, ?_, hpool⟩
  · rw [heq, List.length_take, List.length_insertionSort]
  · rw [heq]
    exact List.Pairwise.sublist (List.take_sublist _ _)
      (List.sorted_insertionSort byScoreDesc _)
  · intro d hd
    rw [heq] at hd
    have hd' : d ∈ specCandidatePool fetch (extract_keywords question 12) ld mi :=
      (List.perm_insertionSort byScoreDesc _).mem_iff.mp
        ((List.take_sublist _ _).subset hd)
    obtain ⟨i, hi, it, hit, hov, hde⟩ := hpool d hd'
    have hovpos : 0 < overlapOf (extract_keywords question 12) it :=
      Nat.pos_of_ne_zero hov
    have hsc : d.score = (overlapOf (extract_keywords question 12) it : ℚ)
        / (max (extract_keywords question 12).length 1 : ℚ) := by
      rw [hde]
      rfl
    have hden : (0 : ℚ) < (max (extract_keywords question 12).length 1 : ℚ) := by
      exact_mod_cast Nat.lt_of_lt_of_le Nat.zero_lt_one (Nat.le_max_right _ 1)
    constructor
    · rw [hsc]
      exact div_pos (by exact_mod_cast hovpos) hden
    · rw [hsc]
      rw [div_le_one hden]
      exact_mod_cast Nat.le_trans (List.countP_le_length _)
        (Nat.le_max_left (extract_keywords question 12).length 1)

theorem C4_filter_score_rank_witness :
    0 < (toDecision (extract_keywords "dluh".data 12) probeItem).score ∧
    (toDecision (extract_keywords "dluh".data 12) probeItem).score ≤ 1 :=
  (C4_filter_score_rank probeFetch "dluh".data 2 200 (by decide)).2.2.2.1
    (toDecision (extract_keywords "dluh".data 12) probeItem)
    (show toDecision (extract_keywords "dluh".data 12) probeItem
        ∈ [toDecision (extract_keywords "dluh".data 12) probeItem]
      from List.mem_cons_self _ _)

theorem C9_error_boundary_witness :
    (on_done (fun _ => []) (Worker_run_emit
      (.error { typeName := "ValueError".data, message := "boom".data }))).traffic_light
      = "red".data :=
  (C9_error_boundary (fun _ => [])
    { typeName := "ValueError".data, message := "boom".data }).2.1
